import Mathlib

/-!
Verification of the range-overlap predicate and the date-labelling
functions of the `effective_pyspark_ws` repository.

The embedding models the two source files:

* `exercises/a_spark_demo/f_common_business_logic_methods.py`, whose
  `ranges_overlap` builds a Spark column expression
  `coalesce(~((start1 > stop2) | (stop1 < start2)), lit(True))`.
  Spark columns carry SQL three-valued logic: a comparison with a null
  operand is null, `|` and `~` propagate null per the SQL truth tables,
  and `coalesce` picks the first non-null value.  We model a nullable
  boolean column value as `Option Bool` and a nullable integer bound as
  `Option Int`.

* `exercises/c_labellers/dates_solution.py`, whose four functions
  (`label_weekend`, `label_holidays`, `label_holidays2`,
  `label_holidays3`) append a boolean column to a DataFrame.  We model a
  DataFrame as a list of rows, a row as an ordered association list of
  attribute names to values, and Spark's `withColumn`, equality left
  join and `na.fill` as list operations.  The external collaborators
  (the `holidays` calendar library and Spark's `dayofweek`) are not in
  the repository, so they enter as function parameters, modelled from
  the spec's collaborator interface.
-/

namespace EPW

/-! ## Three-valued comparison and boolean operators, as Spark evaluates them -/

/-- Spark SQL `>` on nullable integer columns: null when either operand is
null, otherwise the boolean comparison. -/
def sparkGT : Option Int → Option Int → Option Bool
  | some a, some b => some (decide (a > b))
  | _, _ => none

/-- Spark SQL `<` on nullable integer columns. -/
def sparkLT : Option Int → Option Int → Option Bool
  | some a, some b => some (decide (a < b))
  | _, _ => none

/-- Spark SQL `|` (OR) on nullable boolean columns: true wins over null,
null wins over false. -/
def sparkOr : Option Bool → Option Bool → Option Bool
  | some true, _ => some true
  | _, some true => some true
  | some false, some false => some false
  | _, _ => none

/-- Spark SQL `~` (NOT) on nullable boolean columns: null maps to null. -/
def sparkNot : Option Bool → Option Bool
  | some b => some (!b)
  | none => none

/-- Spark SQL `coalesce(x, lit(d))` for a nullable boolean and a literal
default: the first non-null value. -/
def coalesce2 (x : Option Bool) (d : Bool) : Bool :=
  x.getD d

/-- Function `ranges_overlap` from
`exercises/a_spark_demo/f_common_business_logic_methods.py`:
`coalesce(~((start1 > stop2) | (stop1 < start2)), lit(True))`. -/
def ranges_overlap (start1 stop1 start2 stop2 : Option Int) : Bool :=
  coalesce2 (sparkNot (sparkOr (sparkGT start1 stop2) (sparkLT stop1 start2))) true

/-- An interval with optional bounds, the spec's data model; an absent
bound means unbounded on that side. -/
structure Interval where
  start : Option Int
  stop : Option Int
deriving DecidableEq

/-- The overlap predicate applied to two intervals, wiring the bounds to
`ranges_overlap` the way the source call sites do. -/
def overlaps (a b : Interval) : Bool :=
  ranges_overlap a.start a.stop b.start b.stop

/-! ## The spec-side three-valued logic

The specification describes the predicate not through Spark columns but
through an explicit tri-state type with the truth tables
`unknown OR true = true`, `unknown OR false = unknown`,
`unknown OR unknown = unknown`, `NOT unknown = unknown`, comparisons
against an absent bound evaluating to unknown, and the final coalescing
of an unknown result to `true`.  These definitions follow the spec's
words; the refinement theorem below compares them with the source
embedding. -/

/-- The spec's tri-state truth value. -/
inductive Tri where
  | T : Tri
  | F : Tri
  | U : Tri
deriving DecidableEq

/-- The spec's three-valued OR. -/
def Tri.or : Tri → Tri → Tri
  | .T, _ => .T
  | _, .T => .T
  | .F, .F => .F
  | _, _ => .U

/-- The spec's three-valued NOT. -/
def Tri.not : Tri → Tri
  | .T => .F
  | .F => .T
  | .U => .U

/-- The spec's coalescing of a tri-state value with default `true`. -/
def Tri.coalesceTrue : Tri → Bool
  | .T => true
  | .F => false
  | .U => true

/-- Spec-side `>` comparison: unknown when a bound is absent. -/
def triGT : Option Int → Option Int → Tri
  | some a, some b => if a > b then .T else .F
  | _, _ => .U

/-- Spec-side `<` comparison: unknown when a bound is absent. -/
def triLT : Option Int → Option Int → Tri
  | some a, some b => if a < b then .T else .F
  | _, _ => .U

/-- The overlap predicate as the spec words it:
`NOT ((a.start > b.stop) OR (a.stop < b.start))` in three-valued logic,
coalesced to `true` when unknown. -/
def overlapsSpec (a b : Interval) : Bool :=
  (Tri.or (triGT a.start b.stop) (triLT a.stop b.start)).not.coalesceTrue

/-! ## Rows, DataFrames and the labelling functions

`exercises/c_labellers/dates_solution.py` works on Spark DataFrames.  We
model a DataFrame as a `List Row` and a row as an ordered association
list of attribute names to values; `withColumn` replaces an existing
column in place or appends a new one at the end, matching Spark.  A
date is identified by its year together with an abstract day identifier
within the year; the labellers never inspect dates beyond equality and
the year, so nothing more is needed. -/

/-- A calendar date: its year and an identifier of the day within the
year.  The labellers compare dates only for equality and read the year
(through the calendar collaborator), so this is a faithful carrier. -/
structure Date where
  year : Int
  ord : Nat
deriving DecidableEq

/-- A cell value: a date, a boolean, or SQL null. -/
inductive Value where
  | vDate : Date → Value
  | vBool : Bool → Value
  | vNull : Value
deriving DecidableEq

/-- A row: an ordered association list of attribute names to values. -/
abbrev Row := List (String × Value)

/-- Reading a column of a row: the value of the first attribute with the
given name, absent when no attribute has it. -/
def getCol (r : Row) (name : String) : Option Value :=
  (r.find? (fun p => p.1 == name)).map (fun p => p.2)

/-- Spark's `withColumn` at row level: if an attribute with the name
exists it is replaced in place, otherwise the new attribute is appended
last. -/
def withColumn (r : Row) (name : String) (v : Value) : Row :=
  if r.any (fun p => p.1 == name) then
    r.map (fun p => if p.1 == name then (name, v) else p)
  else
    r ++ [(name, v)]

/-- Modelled from the spec: the calendar collaborator
`holidaySet(jurisdiction, yearFrom, yearTo)` materialises the set of
holiday dates of the jurisdiction whose year lies in the inclusive
range; this is its membership test, with `isHol` standing for the
collaborator `isHoliday(date, jurisdiction)` at the fixed jurisdiction.
The `holidays` library the source calls is not part of the repository. -/
def holidaySetMem (isHol : Date → Bool) (yearFrom yearTo : Int) (d : Date) : Bool :=
  decide (yearFrom ≤ d.year) && decide (d.year ≤ yearTo) && isHol d

/-- The Spark column expression of `label_weekend`:
`dayofweek(col(colname)).isin(1, 7)`, evaluated on one row's value.
`dow` stands for Spark's `dayofweek` (modelled from the spec: 1 is the
first day of the week, Sunday, and 7 the last, Saturday).  A null input
yields null; the claims only exercise date-valued cells. -/
def weekendVal (dow : Date → Nat) : Option Value → Value
  | some (.vDate d) => .vBool (dow d == 1 || dow d == 7)
  | _ => .vNull

/-- The Spark column expression of `label_holidays`: the
`is_belgian_holiday` user-defined function applied to one row's value.
A null input yields null; the claims only exercise date-valued cells. -/
def holidayUdfVal (isHol : Date → Bool) : Option Value → Value
  | some (.vDate d) => .vBool (isHol d)
  | _ => .vNull

/-- The Spark column expression of `label_holidays2`:
`col(colname).isin(list(holidays.BE(years=list(range(2015, 2020))).keys()))`,
evaluated on one row's value; the year range 2015..2019 is hard-coded in
the source.  A null input yields null. -/
def isinHolidaysVal (isHol : Date → Bool) : Option Value → Value
  | some (.vDate d) => .vBool (holidaySetMem isHol 2015 2019 d)
  | _ => .vNull

/-- Function `label_weekend` from `exercises/c_labellers/dates_solution.py`:
`frame.withColumn(new_colname, dayofweek(col(colname)).isin(1, 7))`. -/
def label_weekend (dow : Date → Nat) (frame : List Row)
    (colname new_colname : String) : List Row :=
  frame.map (fun r => withColumn r new_colname (weekendVal dow (getCol r colname)))

/-- Function `label_holidays` from `exercises/c_labellers/dates_solution.py`:
`frame.withColumn(new_colname, holiday_udf(col(colname)))`. -/
def label_holidays (isHol : Date → Bool) (frame : List Row)
    (colname new_colname : String) : List Row :=
  frame.map (fun r => withColumn r new_colname (holidayUdfVal isHol (getCol r colname)))

/-- Function `label_holidays2` from `exercises/c_labellers/dates_solution.py`:
`frame.withColumn(new_colname, col(colname).isin(list(holidays_be.keys())))`. -/
def label_holidays2 (isHol : Date → Bool) (frame : List Row)
    (colname new_colname : String) : List Row :=
  frame.map (fun r => withColumn r new_colname (isinHolidaysVal isHol (getCol r colname)))

/-- SQL equality used as a join condition: null never matches. -/
def eqNonNull : Option Value → Option Value → Bool
  | some v, some w => !(v == Value.vNull) && !(w == Value.vNull) && v == w
  | _, _ => false

/-- The two-column DataFrame `label_holidays3` builds:
`[(day, True) for day in holidays_be.keys()]` with schema
`(colname, new_colname)`.  `hdates` is the key list of the precomputed
holiday set (a Python dict, hence without duplicates). -/
def holidays_frame (hdates : List Date) (colname new_colname : String) : List Row :=
  hdates.map (fun d => [(colname, Value.vDate d), (new_colname, Value.vBool true)])

/-- Spark's left equi-join `l.join(r, on=key, how="left")` with the join
column named by `key` kept once, from the left side: every left row is
kept; a left row with matches produces one output row per match, the
right row minus its join column appended; a left row without matches is
padded with nulls for the right columns other than the key (`rcols` is
the right DataFrame's column list). -/
def leftJoin (l r : List Row) (key : String) (rcols : List String) : List Row :=
  l.flatMap (fun a =>
    match r.filter (fun b => eqNonNull (getCol a key) (getCol b key)) with
    | [] => [a ++ (rcols.filter (fun c => !(c == key))).map (fun c => (c, Value.vNull))]
    | ms => ms.map (fun b => a ++ b.filter (fun p => !(p.1 == key))))

/-- Spark's `na.fill(v, subset=[name])` at row level: every null cell of
an attribute with the given name is replaced by `v`. -/
def fillRow (r : Row) (name : String) (v : Value) : Row :=
  r.map (fun p => if p.1 == name && p.2 == Value.vNull then (p.1, v) else p)

/-- Function `label_holidays3` from `exercises/c_labellers/dates_solution.py`:
build the `(date, true)` holiday frame, left-join it onto the input on
the date column, then `na.fill(False, subset=[new_colname])`. -/
def label_holidays3 (hdates : List Date) (frame : List Row)
    (colname new_colname : String) : List Row :=
  (leftJoin frame (holidays_frame hdates colname new_colname) colname
      [colname, new_colname]).map
    (fun r => fillRow r new_colname (Value.vBool false))

/-- Whether a cell value finds a match in the holiday key list under the
join's null-rejecting equality. -/
def matchB (hdates : List Date) (v : Option Value) : Bool :=
  hdates.any (fun d => eqNonNull v (some (Value.vDate d)))

/-- Well-formedness of one row for the strategy-agreement claim: the
date column holds a date whose year lies in the precomputed range
2015..2019, and on that date the precomputed key list agrees with the
calendar collaborator. -/
def rowOk (isHol : Date → Bool) (hdates : List Date) (colname : String) (r : Row) : Bool :=
  match getCol r colname with
  | some (.vDate d) =>
      decide (2015 ≤ d.year) && decide (d.year ≤ 2019) &&
        (decide (d ∈ hdates) == isHol d)
  | _ => false

/-! ## Concrete inputs used by the witnesses -/

/-- A concrete holiday predicate: exactly one holiday, day 0 of 2016. -/
def isHolW : Date → Bool := fun d => decide (d.year = 2016 ∧ d.ord = 0)

/-- The key list of the precomputed holiday set matching `isHolW` on the
years 2015..2019. -/
def hdatesW : List Date := [⟨2016, 0⟩]

/-- A concrete day-of-week function for the witnesses. -/
def dowW : Date → Nat := fun d => d.ord % 7 + 1

/-- A concrete one-row frame whose date is the 2016 holiday. -/
def frameW : List Row := [[("date", Value.vDate ⟨2016, 0⟩)]]

/-- A concrete one-row frame whose date falls outside 2015..2019. -/
def frameW2 : List Row := [[("date", Value.vDate ⟨2020, 3⟩)]]

/-! ## Claims C1, C3, C4, C5 -/

/-- C1: for every pair of intervals, `overlaps` (the source embedding via
Spark's null-propagating operators and `coalesce`) equals the spec's
three-valued expression `NOT ((a.start > b.stop) OR (a.stop < b.start))`
with unknown comparisons on absent bounds and an unknown result
collapsed to `true`. -/
theorem overlaps_eq_threeValued_spec (a b : Interval) :
    overlaps a b = overlapsSpec a b := by
  rcases a with ⟨s1, t1⟩
  rcases b with ⟨s2, t2⟩
  rcases s1 with _ | s1 <;> rcases t1 with _ | t1 <;>
    rcases s2 with _ | s2 <;> rcases t2 with _ | t2 <;>
    simp only [overlaps, overlapsSpec, ranges_overlap, sparkGT, sparkLT,
      triGT, triLT] <;>
    first
    | rfl
    | (by_cases h1 : s1 > t2 <;> by_cases h2 : t1 < s2 <;>
        simp [h1, h2, sparkOr, sparkNot, coalesce2, Tri.or, Tri.not,
          Tri.coalesceTrue])
    | (by_cases h1 : s1 > t2 <;>
        simp [h1, sparkOr, sparkNot, coalesce2, Tri.or, Tri.not,
          Tri.coalesceTrue])
    | (by_cases h2 : t1 < s2 <;>
        simp [h2, sparkOr, sparkNot, coalesce2, Tri.or, Tri.not,
          Tri.coalesceTrue])

/-- C3: the seven rows of the spec's truth table, evaluated on the
source embedding of the predicate. -/
theorem overlaps_truth_table :
    overlaps ⟨some 0, some 5⟩ ⟨some (-5), some (-1)⟩ = false ∧
    overlaps ⟨some 0, some 5⟩ ⟨some (-5), some 2⟩ = true ∧
    overlaps ⟨some 0, some 5⟩ ⟨some 1, some 7⟩ = true ∧
    overlaps ⟨some 0, some 5⟩ ⟨some 6, some 7⟩ = false ∧
    overlaps ⟨some 0, some 5⟩ ⟨some (-5), none⟩ = true ∧
    overlaps ⟨some 0, none⟩ ⟨some (-5), some (-1)⟩ = false ∧
    overlaps ⟨some 0, none⟩ ⟨some 5, some 10⟩ = true := by
  decide

/-- C4: the overlap predicate is symmetric in its two interval
arguments, absent bounds included. -/
theorem overlaps_symm (a b : Interval) : overlaps a b = overlaps b a := by
  rcases a with ⟨s1, t1⟩
  rcases b with ⟨s2, t2⟩
  rcases s1 with _ | s1 <;> rcases t1 with _ | t1 <;>
    rcases s2 with _ | s2 <;> rcases t2 with _ | t2 <;>
    simp only [overlaps, ranges_overlap, sparkGT, sparkLT] <;>
    first
    | rfl
    | (simp [sparkOr, sparkNot, coalesce2]
       constructor <;> intro h <;> omega)
    | (by_cases h1 : s1 > t2 <;> by_cases h2 : t1 < s2 <;>
        simp [h1, h2, sparkOr, sparkNot, coalesce2] <;> omega)
    | (by_cases h1 : s1 > t2 <;>
        simp [h1, sparkOr, sparkNot, coalesce2] <;> omega)
    | (by_cases h2 : t1 < s2 <;>
        simp [h2, sparkOr, sparkNot, coalesce2] <;> omega)

/-- C5: on intervals with all four bounds present, the overlap predicate
agrees with the direct finite-interval-intersection test
`a.start <= b.stop AND b.start <= a.stop`. -/
theorem overlaps_finite_iff (s1 t1 s2 t2 : Int) :
    overlaps ⟨some s1, some t1⟩ ⟨some s2, some t2⟩ =
      (decide (s1 ≤ t2) && decide (s2 ≤ t1)) := by
  simp only [overlaps, ranges_overlap, sparkGT, sparkLT, sparkOr,
    sparkNot, coalesce2]
  by_cases h1 : s1 > t2 <;> by_cases h2 : t1 < s2 <;>
    simp [h1, h2] <;> omega

/-! ## Helper lemmas on rows and columns -/

theorem names_ne_of_getCol_none {r : Row} {n : String} (h : getCol r n = none) :
    ∀ p ∈ r, (p.1 == n) = false := by
  intro p hp
  have hf : r.find? (fun p => p.1 == n) = none := by
    unfold getCol at h
    exact Option.map_eq_none'.mp h
  have := List.find?_eq_none.mp hf p hp
  simpa using this

theorem any_names_false {r : Row} {n : String} (h : getCol r n = none) :
    r.any (fun p => p.1 == n) = false := by
  rw [List.any_eq_false]
  intro p hp
  simp [names_ne_of_getCol_none h p hp]

theorem withColumn_fresh {r : Row} {n : String} (v : Value)
    (h : getCol r n = none) : withColumn r n v = r ++ [(n, v)] := by
  unfold withColumn
  rw [any_names_false h]
  simp

theorem getCol_append (r s : Row) (c : String) :
    getCol (r ++ s) c = (getCol r c).or (getCol s c) := by
  unfold getCol
  rw [List.find?_append]
  cases r.find? (fun p => p.1 == c) <;> simp

theorem getCol_singleton_self (n : String) (v : Value) :
    getCol [(n, v)] n = some v := by
  simp [getCol]

theorem getCol_singleton_ne {c n : String} (hcn : c ≠ n) (v : Value) :
    getCol [(n, v)] c = none := by
  simp [getCol, Ne.symm hcn]

theorem getCol_append_fresh {r : Row} {n : String} (v : Value)
    (h : getCol r n = none) : getCol (r ++ [(n, v)]) n = some v := by
  rw [getCol_append, h, getCol_singleton_self]
  rfl

theorem getCol_append_of_some {r : Row} {c : String} {v : Value}
    (h : getCol r c = some v) (s : Row) : getCol (r ++ s) c = some v := by
  rw [getCol_append, h]
  rfl

theorem fillRow_of_fresh {r : Row} {n : String} (v : Value)
    (h : getCol r n = none) : fillRow r n v = r := by
  unfold fillRow
  conv_rhs => rw [← List.map_id r]
  apply List.map_congr_left
  intro p hp
  simp [names_ne_of_getCol_none h p hp]

theorem getCol_none_of_any_false {r : Row} {n : String}
    (h : ¬r.any (fun p => p.1 == n) = true) : getCol r n = none := by
  unfold getCol
  rw [Option.map_eq_none', List.find?_eq_none]
  simp only [Bool.not_eq_true] at h
  exact List.any_eq_false.mp h

theorem getCol_withColumn_self (r : Row) (n : String) (v : Value) :
    getCol (withColumn r n v) n = some v := by
  unfold withColumn
  by_cases h : r.any (fun p => p.1 == n) = true
  · rw [if_pos h]
    unfold getCol
    rw [List.find?_map]
    have hpred : ((fun p : String × Value => p.1 == n) ∘
        (fun p => if p.1 == n then (n, v) else p)) = (fun p => p.1 == n) := by
      funext p
      by_cases hp : (p.1 == n) = true <;> simp [Function.comp, hp]
    rw [hpred]
    obtain ⟨q, hq⟩ :=
      Option.isSome_iff_exists.mp (List.find?_isSome.mpr (List.any_eq_true.mp h))
    have hqn : q.1 = n := by
      have := List.find?_some hq
      simpa using this
    rw [hq]
    simp [hqn]
  · rw [if_neg h]
    exact getCol_append_fresh v (getCol_none_of_any_false h)

theorem getCol_withColumn_ne (r : Row) {c n : String} (hcn : c ≠ n) (v : Value) :
    getCol (withColumn r n v) c = getCol r c := by
  unfold withColumn
  by_cases h : r.any (fun p => p.1 == n) = true
  · rw [if_pos h]
    unfold getCol
    rw [List.find?_map]
    have hpred : ((fun p : String × Value => p.1 == c) ∘
        (fun p => if p.1 == n then (n, v) else p)) = (fun p => p.1 == c) := by
      funext p
      by_cases hp : (p.1 == n) = true
      · have hp1 : p.1 = n := by simpa using hp
        simp [Function.comp, hp, hp1, Ne.symm hcn]
      · simp [Function.comp, hp]
    rw [hpred]
    cases hf : r.find? (fun p => p.1 == c) with
    | none => rfl
    | some q =>
      have hq1 : q.1 = c := by
        have := List.find?_some hf
        simpa using this
      simp [hq1, hcn]
  · rw [if_neg h]
    rw [getCol_append, getCol_singleton_ne hcn v]
    cases getCol r c <;> rfl

theorem withColumn_withColumn (r : Row) (n : String) (v w : Value) :
    withColumn (withColumn r n v) n w = withColumn r n w := by
  unfold withColumn
  by_cases h : r.any (fun p => p.1 == n) = true
  · rw [if_pos h, if_pos h]
    have h2 : (r.map (fun p => if p.1 == n then (n, v) else p)).any
        (fun p => p.1 == n) = true := by
      rw [List.any_map]
      rw [List.any_eq_true] at h ⊢
      obtain ⟨p, hp, hpn⟩ := h
      exact ⟨p, hp, by simp [Function.comp, hpn]⟩
    rw [if_pos h2, List.map_map]
    apply List.map_congr_left
    intro p _
    by_cases hpn : (p.1 == n) = true <;> simp [Function.comp, hpn]
  · rw [if_neg h, if_neg h]
    have h2 : (r ++ [(n, v)]).any (fun p => p.1 == n) = true := by
      rw [List.any_append]
      simp
    rw [if_pos h2, List.map_append]
    have hr : r.map (fun p => if p.1 == n then (n, w) else p) = r := by
      conv_rhs => rw [← List.map_id r]
      apply List.map_congr_left
      intro p hp
      have hall : r.any (fun p => p.1 == n) = false := by
        simp only [Bool.not_eq_true] at h
        exact h
      have hpn := List.any_eq_false.mp hall p hp
      simp only [Bool.not_eq_true] at hpn
      simp [hpn]
    rw [hr]
    simp

/-! ## Helper lemmas on the holiday join -/

theorem filter_beq_nodup {α : Type} [DecidableEq α] {l : List α}
    (hl : l.Nodup) (a : α) :
    l.filter (fun x => a == x) = if a ∈ l then [a] else [] := by
  induction l with
  | nil => simp
  | cons x t ih =>
    rw [List.nodup_cons] at hl
    by_cases hax : a = x
    · subst hax
      rw [List.filter_cons_of_pos (by simp)]
      have ht : t.filter (fun x => a == x) = [] := by
        rw [List.filter_eq_nil_iff]
        intro b hb
        simp only [beq_iff_eq]
        intro hab
        exact hl.1 (hab ▸ hb)
      simp [ht]
    · rw [List.filter_cons_of_neg (by simp [hax])]
      rw [ih hl.2]
      simp [List.mem_cons, hax]

theorem getCol_holidayRow (c n : String) (d : Date) :
    getCol [(c, Value.vDate d), (n, Value.vBool true)] c = some (Value.vDate d) := by
  simp [getCol]

theorem matchB_not_date (hdates : List Date) {va : Option Value}
    (hv : ∀ d : Date, va ≠ some (Value.vDate d)) : matchB hdates va = false := by
  rw [matchB, List.any_eq_false]
  intro d _
  cases va with
  | none => simp [eqNonNull]
  | some w =>
    cases w with
    | vDate d0 => exact absurd rfl (hv d0)
    | vBool b => simp [eqNonNull]
    | vNull => simp [eqNonNull]

theorem matchB_vDate (hdates : List Date) (d : Date) :
    matchB hdates (some (Value.vDate d)) = decide (d ∈ hdates) := by
  rw [matchB]
  induction hdates with
  | nil => simp
  | cons x t ih =>
    rw [List.any_cons, ih]
    by_cases hdx : d = x <;> simp [eqNonNull, hdx, List.mem_cons]

theorem holidays_filter_not_date (hdates : List Date) (c n : String)
    {va : Option Value} (hv : ∀ d : Date, va ≠ some (Value.vDate d)) :
    (holidays_frame hdates c n).filter (fun b => eqNonNull va (getCol b c)) = [] := by
  rw [List.filter_eq_nil_iff]
  intro b hb
  obtain ⟨d, _, rfl⟩ := List.mem_map.mp hb
  rw [getCol_holidayRow]
  cases va with
  | none => simp [eqNonNull]
  | some w =>
    cases w with
    | vDate d0 => exact absurd rfl (hv d0)
    | vBool b0 => simp [eqNonNull]
    | vNull => simp [eqNonNull]

theorem holidays_filter_date (hdates : List Date) (hnodup : hdates.Nodup)
    (c n : String) (d : Date) :
    (holidays_frame hdates c n).filter
        (fun b => eqNonNull (some (Value.vDate d)) (getCol b c)) =
      if d ∈ hdates then [[(c, Value.vDate d), (n, Value.vBool true)]] else [] := by
  unfold holidays_frame
  rw [List.filter_map]
  have hpred : ((fun b : Row => eqNonNull (some (Value.vDate d)) (getCol b c)) ∘
      (fun x : Date => [(c, Value.vDate x), (n, Value.vBool true)])) =
      (fun x : Date => d == x) := by
    funext x
    rw [Function.comp_apply, getCol_holidayRow]
    rw [Bool.eq_iff_iff]
    simp [eqNonNull]
  rw [hpred, filter_beq_nodup hnodup d]
  by_cases hd : d ∈ hdates <;> simp [hd]

theorem fillRow_append (r s : Row) (n : String) (v : Value) :
    fillRow (r ++ s) n v = fillRow r n v ++ fillRow s n v :=
  List.map_append _ _ _

theorem label_holidays3_singleton (hdates : List Date) (hnodup : hdates.Nodup)
    {c n : String} (hcn : c ≠ n) (a : Row) (ha : getCol a n = none) :
    label_holidays3 hdates [a] c n =
      [a ++ [(n, Value.vBool (matchB hdates (getCol a c)))]] := by
  unfold label_holidays3 leftJoin
  rw [List.flatMap_cons, List.flatMap_nil, List.append_nil]
  cases hva : getCol a c with
  | none =>
    rw [holidays_filter_not_date hdates c n (by intro d; simp)]
    rw [matchB_not_date hdates (by intro d; simp)]
    simp only [List.map_cons, List.map_nil]
    rw [List.cons.injEq]
    refine ⟨?_, rfl⟩
    have hflt : [c, n].filter (fun x => !(x == c)) = [n] := by
      simp [Ne.symm hcn]
    rw [hflt]
    simp only [List.map_cons, List.map_nil]
    rw [fillRow_append, fillRow_of_fresh _ ha]
    simp [fillRow]
  | some w =>
    cases w with
    | vDate d =>
      rw [holidays_filter_date hdates hnodup c n d, matchB_vDate]
      by_cases hd : d ∈ hdates
      · rw [if_pos hd]
        simp only [List.map_cons, List.map_nil]
        rw [List.cons.injEq]
        refine ⟨?_, rfl⟩
        have hflt : ([(c, Value.vDate d), (n, Value.vBool true)] : Row).filter
            (fun p => !(p.1 == c)) = [(n, Value.vBool true)] := by
          simp [Ne.symm hcn]
        rw [hflt, fillRow_append, fillRow_of_fresh _ ha]
        simp [fillRow, hd]
      · rw [if_neg hd]
        simp only [List.map_cons, List.map_nil]
        rw [List.cons.injEq]
        refine ⟨?_, rfl⟩
        have hflt : [c, n].filter (fun x => !(x == c)) = [n] := by
          simp [Ne.symm hcn]
        rw [hflt]
        simp only [List.map_cons, List.map_nil]
        rw [fillRow_append, fillRow_of_fresh _ ha]
        simp [fillRow, hd]
    | vBool b =>
      rw [holidays_filter_not_date hdates c n (by intro d; simp)]
      rw [matchB_not_date hdates (by intro d; simp)]
      simp only [List.map_cons, List.map_nil]
      rw [List.cons.injEq]
      refine ⟨?_, rfl⟩
      have hflt : [c, n].filter (fun x => !(x == c)) = [n] := by
        simp [Ne.symm hcn]
      rw [hflt]
      simp only [List.map_cons, List.map_nil]
      rw [fillRow_append, fillRow_of_fresh _ ha]
      simp [fillRow]
    | vNull =>
      rw [holidays_filter_not_date hdates c n (by intro d; simp)]
      rw [matchB_not_date hdates (by intro d; simp)]
      simp only [List.map_cons, List.map_nil]
      rw [List.cons.injEq]
      refine ⟨?_, rfl⟩
      have hflt : [c, n].filter (fun x => !(x == c)) = [n] := by
        simp [Ne.symm hcn]
      rw [hflt]
      simp only [List.map_cons, List.map_nil]
      rw [fillRow_append, fillRow_of_fresh _ ha]
      simp [fillRow]

theorem label_holidays3_eq_map (hdates : List Date) (frame : List Row)
    {c n : String} (hnodup : hdates.Nodup) (hcn : c ≠ n)
    (hfresh : ∀ r ∈ frame, getCol r n = none) :
    label_holidays3 hdates frame c n =
      frame.map (fun r => r ++ [(n, Value.vBool (matchB hdates (getCol r c)))]) := by
  induction frame with
  | nil => rfl
  | cons a t ih =>
    have ha : getCol a n = none := hfresh a (List.mem_cons_self a t)
    have hstep : label_holidays3 hdates (a :: t) c n =
        label_holidays3 hdates [a] c n ++ label_holidays3 hdates t c n := by
      unfold label_holidays3 leftJoin
      rw [List.flatMap_cons, List.map_append, List.flatMap_cons, List.flatMap_nil,
        List.append_nil]
    rw [hstep, label_holidays3_singleton hdates hnodup hcn a ha,
      ih (fun r hr => hfresh r (List.mem_cons_of_mem a hr))]
    rfl

/-! ## Claims C6, C7, C8, C10 -/

/-- C6: `label_weekend` returns the input row set with the output
attribute appended (the embedding is pure, so the input is not mutated;
the appended form shows every original attribute kept), the appended
value is true exactly when the day-of-week is 1 (Sunday) or 7
(Saturday), a Saturday date yields true, and a Wednesday date (4 under
this convention) yields false. -/
theorem label_weekend_spec (dow : Date → Nat) (frame : List Row)
    (c n : String) (d dSat dWed : Date)
    (hfresh : ∀ r ∈ frame, getCol r n = none)
    (hSat : dow dSat = 7) (hWed : dow dWed = 4) :
    label_weekend dow frame c n =
      frame.map (fun r => r ++ [(n, weekendVal dow (getCol r c))]) ∧
    (weekendVal dow (some (Value.vDate d)) = Value.vBool true ↔
      (dow d = 1 ∨ dow d = 7)) ∧
    weekendVal dow (some (Value.vDate dSat)) = Value.vBool true ∧
    weekendVal dow (some (Value.vDate dWed)) = Value.vBool false := by
  refine ⟨?_, ?_, ?_, ?_⟩
  · unfold label_weekend
    apply List.map_congr_left
    intro r hr
    rw [withColumn_fresh _ (hfresh r hr)]
  · simp [weekendVal]
  · simp [weekendVal, hSat]
  · simp [weekendVal, hWed]

/-- Witness for C6 at a concrete frame and day-of-week function. -/
theorem label_weekend_spec_witness :
    ((∀ r ∈ frameW, getCol r "is_weekend" = none) ∧
      dowW ⟨2016, 6⟩ = 7 ∧ dowW ⟨2016, 3⟩ = 4) ∧
    (label_weekend dowW frameW "date" "is_weekend" =
        frameW.map (fun r => r ++ [("is_weekend", weekendVal dowW (getCol r "date"))]) ∧
      (weekendVal dowW (some (Value.vDate ⟨2016, 0⟩)) = Value.vBool true ↔
        (dowW ⟨2016, 0⟩ = 1 ∨ dowW ⟨2016, 0⟩ = 7)) ∧
      weekendVal dowW (some (Value.vDate ⟨2016, 6⟩)) = Value.vBool true ∧
      weekendVal dowW (some (Value.vDate ⟨2016, 3⟩)) = Value.vBool false) :=
  ⟨⟨by decide, by decide, by decide⟩,
    label_weekend_spec dowW frameW "date" "is_weekend" ⟨2016, 0⟩ ⟨2016, 6⟩ ⟨2016, 3⟩
      (by decide) (by decide) (by decide)⟩

/-- C8: under the membership strategy, a row whose date lies outside the
precomputed year range 2015..2019 is labelled `false` (the embedding is
total, so no error is raised), even when the calendar collaborator marks
that date as a holiday. -/
theorem label_holidays2_out_of_range (isHol : Date → Bool) (frame : List Row)
    (c n : String) (r : Row) (d : Date)
    (hr : r ∈ frame) (hd : getCol r c = some (Value.vDate d))
    (hrange : d.year < 2015 ∨ 2019 < d.year) (hhol : isHol d = true) :
    withColumn r n (Value.vBool false) ∈ label_holidays2 isHol frame c n := by
  unfold label_holidays2
  apply List.mem_map.mpr
  refine ⟨r, hr, ?_⟩
  rw [hd]
  have hmem : holidaySetMem isHol 2015 2019 d = false := by
    rcases hrange with h | h
    · have hy : ¬(2015 ≤ d.year) := by omega
      simp [holidaySetMem, hy]
    · have hy : ¬(d.year ≤ 2019) := by omega
      simp [holidaySetMem, hy]
  simp [isinHolidaysVal, hmem]

/-- Witness for C8: an everywhere-true holiday predicate and a 2020
date, labelled `false` nonetheless. -/
theorem label_holidays2_out_of_range_witness :
    ([("date", Value.vDate ⟨2020, 3⟩)] ∈ frameW2 ∧
      getCol [("date", Value.vDate ⟨2020, 3⟩)] "date" = some (Value.vDate ⟨2020, 3⟩) ∧
      ((⟨2020, 3⟩ : Date).year < 2015 ∨ 2019 < (⟨2020, 3⟩ : Date).year) ∧
      (fun _ : Date => true) ⟨2020, 3⟩ = true) ∧
    withColumn [("date", Value.vDate ⟨2020, 3⟩)] "is_belgian_holiday" (Value.vBool false) ∈
      label_holidays2 (fun _ => true) frameW2 "date" "is_belgian_holiday" :=
  ⟨⟨by decide, by decide, by decide, rfl⟩,
    label_holidays2_out_of_range (fun _ => true) frameW2 "date" "is_belgian_holiday"
      [("date", Value.vDate ⟨2020, 3⟩)] ⟨2020, 3⟩ (by decide) (by decide)
      (by decide) rfl⟩

/-- C10: the join strategy produces exactly one output row per input
row, in order (the precomputed calendar has at most one row per date,
expressed by `hdates.Nodup`): the output is the input mapped row by row,
each row keeping all its original attributes unchanged with the single
boolean attribute appended, so in particular the lengths agree. -/
theorem label_holidays3_frame_preserving (hdates : List Date) (frame : List Row)
    (c n : String) (hnodup : hdates.Nodup) (hcn : c ≠ n)
    (hfresh : ∀ r ∈ frame, getCol r n = none) :
    label_holidays3 hdates frame c n =
      frame.map (fun r => r ++ [(n, Value.vBool (matchB hdates (getCol r c)))]) ∧
    (label_holidays3 hdates frame c n).length = frame.length := by
  have h := label_holidays3_eq_map hdates frame hnodup hcn hfresh
  exact ⟨h, by rw [h, List.length_map]⟩

/-- Witness for C10 at a concrete calendar and frame. -/
theorem label_holidays3_frame_preserving_witness :
    (hdatesW.Nodup ∧ "date" ≠ "is_belgian_holiday" ∧
      (∀ r ∈ frameW, getCol r "is_belgian_holiday" = none)) ∧
    (label_holidays3 hdatesW frameW "date" "is_belgian_holiday" =
        frameW.map (fun r =>
          r ++ [("is_belgian_holiday",
            Value.vBool (matchB hdatesW (getCol r "date")))]) ∧
      (label_holidays3 hdatesW frameW "date" "is_belgian_holiday").length =
        frameW.length) :=
  ⟨⟨by decide, by decide, by decide⟩,
    label_holidays3_frame_preserving hdatesW frameW "date" "is_belgian_holiday"
      (by decide) (by decide) (by decide)⟩

/-- C7: under the join strategy every output row carries the output
attribute with an explicit boolean value (never absent, never null), and
every input row whose date is not in the precomputed holiday set shows
up in the output with the attribute explicitly `false`. -/
theorem label_holidays3_explicit_false (hdates : List Date) (frame : List Row)
    (c n : String) (hnodup : hdates.Nodup) (hcn : c ≠ n)
    (hfresh : ∀ r ∈ frame, getCol r n = none) :
    (∀ out ∈ label_holidays3 hdates frame c n, ∃ b : Bool,
      getCol out n = some (Value.vBool b)) ∧
    (∀ r ∈ frame, ∀ d : Date, getCol r c = some (Value.vDate d) → d ∉ hdates →
      r ++ [(n, Value.vBool false)] ∈ label_holidays3 hdates frame c n) := by
  rw [label_holidays3_eq_map hdates frame hnodup hcn hfresh]
  constructor
  · intro out hout
    obtain ⟨r, hr, rfl⟩ := List.mem_map.mp hout
    exact ⟨matchB hdates (getCol r c), getCol_append_fresh _ (hfresh r hr)⟩
  · intro r hr d hd hnot
    apply List.mem_map.mpr
    refine ⟨r, hr, ?_⟩
    rw [hd, matchB_vDate]
    simp [hnot]

/-- Witness for C7: a frame whose single date is not a holiday. -/
theorem label_holidays3_explicit_false_witness :
    (hdatesW.Nodup ∧ "date" ≠ "is_belgian_holiday" ∧
      (∀ r ∈ frameW2, getCol r "is_belgian_holiday" = none)) ∧
    ((∀ out ∈ label_holidays3 hdatesW frameW2 "date" "is_belgian_holiday",
        ∃ b : Bool, getCol out "is_belgian_holiday" = some (Value.vBool b)) ∧
      (∀ r ∈ frameW2, ∀ d : Date, getCol r "date" = some (Value.vDate d) →
        d ∉ hdatesW →
        r ++ [("is_belgian_holiday", Value.vBool false)] ∈
          label_holidays3 hdatesW frameW2 "date" "is_belgian_holiday")) :=
  ⟨⟨by decide, by decide, by decide⟩,
    label_holidays3_explicit_false hdatesW frameW2 "date" "is_belgian_holiday"
      (by decide) (by decide) (by decide)⟩

/-! ## Claim C2 -/

/-- C2: on an input row set that does not yet carry the output
attribute, whose every row holds a date inside the precomputed year
range 2015..2019, and whose dates the precomputed key list classifies
exactly as the calendar collaborator does (`rowOk`), the three
strategies `label_holidays`, `label_holidays2` and `label_holidays3`
produce identical `(date, is_holiday)` pairs for every row. -/
theorem label_holidays_strategies_agree (isHol : Date → Bool) (hdates : List Date)
    (frame : List Row) (c n : String)
    (hnodup : hdates.Nodup) (hcn : c ≠ n)
    (hrows : ∀ r ∈ frame, getCol r n = none ∧ rowOk isHol hdates c r = true) :
    (label_holidays isHol frame c n).map (fun r => (getCol r c, getCol r n)) =
      (label_holidays2 isHol frame c n).map (fun r => (getCol r c, getCol r n)) ∧
    (label_holidays isHol frame c n).map (fun r => (getCol r c, getCol r n)) =
      (label_holidays3 hdates frame c n).map (fun r => (getCol r c, getCol r n)) := by
  have hfresh : ∀ r ∈ frame, getCol r n = none := fun r hr => (hrows r hr).1
  have key : ∀ r ∈ frame, ∃ d : Date,
      getCol r c = some (Value.vDate d) ∧ 2015 ≤ d.year ∧ d.year ≤ 2019 ∧
      decide (d ∈ hdates) = isHol d := by
    intro r hr
    have h2 := (hrows r hr).2
    unfold rowOk at h2
    cases hva : getCol r c with
    | none => rw [hva] at h2; cases h2
    | some w =>
      cases w with
      | vDate d =>
        rw [hva] at h2
        simp only [Bool.and_eq_true, decide_eq_true_eq, beq_iff_eq] at h2
        exact ⟨d, rfl, h2.1.1, h2.1.2, h2.2⟩
      | vBool b => rw [hva] at h2; cases h2
      | vNull => rw [hva] at h2; cases h2
  constructor
  · unfold label_holidays label_holidays2
    rw [List.map_map, List.map_map]
    apply List.map_congr_left
    intro r hr
    obtain ⟨d, hd, hy1, hy2, hmem⟩ := key r hr
    simp only [Function.comp_apply]
    rw [withColumn_fresh _ (hfresh r hr), withColumn_fresh _ (hfresh r hr)]
    rw [getCol_append_of_some hd, getCol_append_of_some hd]
    rw [getCol_append_fresh _ (hfresh r hr), getCol_append_fresh _ (hfresh r hr)]
    rw [hd]
    simp [holidayUdfVal, isinHolidaysVal, holidaySetMem, hy1, hy2]
  · rw [label_holidays3_eq_map hdates frame hnodup hcn hfresh]
    unfold label_holidays
    rw [List.map_map, List.map_map]
    apply List.map_congr_left
    intro r hr
    obtain ⟨d, hd, hy1, hy2, hmem⟩ := key r hr
    simp only [Function.comp_apply]
    rw [withColumn_fresh _ (hfresh r hr)]
    rw [getCol_append_of_some hd, getCol_append_of_some hd]
    rw [getCol_append_fresh _ (hfresh r hr), getCol_append_fresh _ (hfresh r hr)]
    rw [hd, matchB_vDate, hmem]
    simp [holidayUdfVal]

/-- Witness for C2 at a concrete calendar, predicate and frame. -/
theorem label_holidays_strategies_agree_witness :
    (hdatesW.Nodup ∧ "date" ≠ "is_belgian_holiday" ∧
      (∀ r ∈ frameW, getCol r "is_belgian_holiday" = none ∧
        rowOk isHolW hdatesW "date" r = true)) ∧
    ((label_holidays isHolW frameW "date" "is_belgian_holiday").map
        (fun r => (getCol r "date", getCol r "is_belgian_holiday")) =
      (label_holidays2 isHolW frameW "date" "is_belgian_holiday").map
        (fun r => (getCol r "date", getCol r "is_belgian_holiday")) ∧
    (label_holidays isHolW frameW "date" "is_belgian_holiday").map
        (fun r => (getCol r "date", getCol r "is_belgian_holiday")) =
      (label_holidays3 hdatesW frameW "date" "is_belgian_holiday").map
        (fun r => (getCol r "date", getCol r "is_belgian_holiday"))) :=
  ⟨⟨by decide, by decide, by decide⟩,
    label_holidays_strategies_agree isHolW hdatesW frameW "date" "is_belgian_holiday"
      (by decide) (by decide) (by decide)⟩

/-! ## Claim C9 -/

/-- C9 counterexample: relabelling with the join strategy is not
idempotent.  Applying `label_holidays3` twice to a concrete one-row
frame appends the output attribute a second time instead of overwriting
it, so the claim as stated — every labelling operation overwrites and
relabelling twice equals labelling once — fails on `label_holidays3`. -/
theorem label_holidays3_relabel_duplicates :
    label_holidays3 hdatesW
        (label_holidays3 hdatesW frameW "date" "is_belgian_holiday")
        "date" "is_belgian_holiday" ≠
      label_holidays3 hdatesW frameW "date" "is_belgian_holiday" := by
  decide

/-- C9 amended: the three `withColumn`-based labellers (`label_weekend`,
`label_holidays`, `label_holidays2`) overwrite an existing attribute of
the output name rather than duplicating it — `withColumn` keeps exactly
one attribute of that name — and relabelling twice with any of them
equals labelling once; `label_holidays3` is excluded, since its join
appends a second attribute of the same name (see the counterexample). -/
theorem withColumn_labellers_idempotent (dow : Date → Nat) (isHol : Date → Bool)
    (frame : List Row) (c n : String) (r : Row) (v : Value) (hcn : c ≠ n) :
    label_weekend dow (label_weekend dow frame c n) c n =
      label_weekend dow frame c n ∧
    label_holidays isHol (label_holidays isHol frame c n) c n =
      label_holidays isHol frame c n ∧
    label_holidays2 isHol (label_holidays2 isHol frame c n) c n =
      label_holidays2 isHol frame c n ∧
    (withColumn r n v).countP (fun p => p.1 == n) =
      max 1 (r.countP (fun p => p.1 == n)) := by
  refine ⟨?_, ?_, ?_, ?_⟩
  · unfold label_weekend
    rw [List.map_map]
    apply List.map_congr_left
    intro s _
    simp only [Function.comp_apply]
    rw [getCol_withColumn_ne s hcn, withColumn_withColumn]
  · unfold label_holidays
    rw [List.map_map]
    apply List.map_congr_left
    intro s _
    simp only [Function.comp_apply]
    rw [getCol_withColumn_ne s hcn, withColumn_withColumn]
  · unfold label_holidays2
    rw [List.map_map]
    apply List.map_congr_left
    intro s _
    simp only [Function.comp_apply]
    rw [getCol_withColumn_ne s hcn, withColumn_withColumn]
  · unfold withColumn
    by_cases h : r.any (fun p => p.1 == n) = true
    · rw [if_pos h, List.countP_map]
      have hcnt : r.countP ((fun p : String × Value => p.1 == n) ∘
          (fun p => if p.1 == n then (n, v) else p)) =
          r.countP (fun p => p.1 == n) := by
        apply List.countP_congr
        intro p _
        by_cases hp : (p.1 == n) = true <;> simp [Function.comp, hp]
      rw [hcnt]
      have hpos : 0 < r.countP (fun p => p.1 == n) := by
        rw [List.countP_pos_iff]
        exact List.any_eq_true.mp h
      omega
    · rw [if_neg h, List.countP_append]
      have hzero : r.countP (fun p => p.1 == n) = 0 := by
        rw [List.countP_eq_zero]
        simp only [Bool.not_eq_true] at h
        exact List.any_eq_false.mp h
      rw [hzero]
      simp [List.countP_cons]

/-- Witness for the amended C9 at a concrete frame, row and value. -/
theorem withColumn_labellers_idempotent_witness :
    ("date" ≠ "is_weekend") ∧
    (label_weekend dowW (label_weekend dowW frameW "date" "is_weekend")
        "date" "is_weekend" =
      label_weekend dowW frameW "date" "is_weekend" ∧
    label_holidays isHolW (label_holidays isHolW frameW "date" "is_weekend")
        "date" "is_weekend" =
      label_holidays isHolW frameW "date" "is_weekend" ∧
    label_holidays2 isHolW (label_holidays2 isHolW frameW "date" "is_weekend")
        "date" "is_weekend" =
      label_holidays2 isHolW frameW "date" "is_weekend" ∧
    (withColumn [("is_weekend", Value.vNull)] "is_weekend"
        (Value.vBool true)).countP (fun p => p.1 == "is_weekend") =
      max 1 (([("is_weekend", Value.vNull)] : Row).countP
        (fun p => p.1 == "is_weekend"))) :=
  ⟨by decide,
    withColumn_labellers_idempotent dowW isHolW frameW "date" "is_weekend"
      [("is_weekend", Value.vNull)] (Value.vBool true) (by decide)⟩

end EPW
